import Mathlib

/-!
Shallow embedding of the extraction engine of `src/main.rs`
(`extract_files_thread` and `process_zip_file_thread`), a GUI utility that
extracts files from ZIP archives into an output directory, optionally
filtering by file extension.

Strings model Rust strings (the ASCII fragment: Rust `to_lowercase`,
`trim` and `char::is_whitespace` are Unicode-aware; the embedding covers
the ASCII part, which is the fragment all claims range over).  Entry names
are `/`-separated path strings, as produced by the `zip` crate.  File
contents are byte lists.  I/O failure points (archive open failure, entry
read failure, write failure) are modelled as explicit slots in the archive
model, since the engine observes them only through `Result` propagation.
String processing is implemented over `List Char` so every definition
reduces inside the kernel.
-/

/-- Splitting a character list on a separator character, keeping empty
pieces, as Rust `str::split(sep)` does (an empty input yields one empty
piece). -/
def charSplit (sep : Char) : List Char → List (List Char)
  | [] => [[]]
  | c :: rest =>
    if c = sep then [] :: charSplit sep rest
    else
      match charSplit sep rest with
      | [] => [[c]]
      | p :: ps => (c :: p) :: ps

/-- Whether `pat` is an initial segment of `l`. -/
def startsWithSeq : List Char → List Char → Bool
  | [], _ => true
  | _ :: _, [] => false
  | p :: ps, c :: cs => p = c && startsWithSeq ps cs

/-- Whether `pat` occurs as a contiguous subsequence of `l`; model of Rust
`str::contains(pat)`. -/
def containsSeq (pat : List Char) : List Char → Bool
  | [] => startsWithSeq pat []
  | c :: cs => startsWithSeq pat (c :: cs) || containsSeq pat cs

/-- Model of Rust `str::trim`: drop whitespace from both ends. -/
def trimChars (l : List Char) : List Char :=
  ((l.dropWhile Char.isWhitespace).reverse.dropWhile Char.isWhitespace).reverse

/-- Model of Rust `str::contains` at the `String` interface. -/
def containsSub (s pat : String) : Bool :=
  containsSeq pat.toList s.toList

/-- Model of Rust `str::starts_with` at the `String` interface. -/
def strStartsWith (s pat : String) : Bool :=
  startsWithSeq pat.toList s.toList

/-- Model of Rust `Path::file_name` on a `/`-separated path string:
the last normal component; `none` when the path is empty, is all
separators, or ends in a `..` component.  Empty and `.` components are
skipped, as in Rust path component parsing. -/
def pathFileName (s : String) : Option String :=
  match ((charSplit '/' s.toList).filter
      (fun c => !c.isEmpty && c != ['.'])).getLast? with
  | some c => if c = ['.', '.'] then none else some (String.mk c)
  | none => none

/-- Model of Rust extension splitting applied to a file name: the part
after the last `.`, or `none` when there is no dot, or the only dot is the
leading character of the file name. -/
def fileExt (f : List Char) : Option String :=
  let parts := charSplit '.' f
  if parts.length ≤ 1 then none
  else if parts.length = 2 ∧ parts.headD [] = [] then none
  else some (String.mk (parts.getLastD []))

/-- Model of Rust `Path::extension` on a `/`-separated path string. -/
def pathExtension (s : String) : Option String :=
  match pathFileName s with
  | some f => fileExt f.toList
  | none => none

/-- ASCII lower-casing of a string, the fragment of Rust `to_lowercase`
the claims range over. -/
def lowerStr (s : String) : String :=
  String.mk (s.toList.map Char.toLower)

/-- Model of the `zip` crate `ZipFile::is_file`: an entry is a file unless
its name ends with the `/` separator. -/
def zipIsFile (name : String) : Bool :=
  !(name.toList.getLast? == some '/')

/-- `main.rs` lines 63-67: split the extension field on `,`, trim each
piece, strip leading dots, lower-case, and drop empty results. -/
def normalizeExts (extensions : String) : List String :=
  (((charSplit ',' extensions.toList).map
      (fun p => ((trimChars p).dropWhile (fun c => c = '.')).map Char.toLower)).filter
    (fun p => !p.isEmpty)).map String.mk

/-- `main.rs` lines 135-141: extract every file when the filter is empty,
otherwise only files whose lower-cased extension occurs in the filter. -/
def shouldExtract (exts : List String) (entryName : String) : Bool :=
  if exts.isEmpty then true
  else
    match pathExtension entryName with
    | some e => exts.contains (lowerStr e)
    | none => false

/-- One slot of an opened archive, as the engine can observe it through
`archive.by_index(i)` and the subsequent write:
`good` is an entry whose header and bytes are readable and writable;
`fetchErr` is a slot where `by_index` (or reading the entry) fails;
`writeErr` is a readable entry for which creating or writing the output
file fails, if the engine attempts to. -/
inductive EntrySlot where
  | good (name : String) (content : List Nat)
  | fetchErr
  | writeErr (name : String) (content : List Nat)
deriving DecidableEq

/-- A ZIP container as seen from `File::open` + `ZipArchive::new`:
either opening/parsing fails, or it presents a sequence of slots. -/
inductive ArchiveModel where
  | openErr
  | archive (slots : List EntrySlot)
deriving DecidableEq

/-- A direct child of the input directory, as `read_dir` yields it:
a regular file (with the container behind it) or a non-regular-file child
such as a subdirectory. -/
inductive DirChild where
  | fileChild (name : String) (a : ArchiveModel)
  | otherChild (name : String)
deriving DecidableEq

/-- What the file system holds at the input path. -/
inductive InputFS where
  | missing
  | fileAt (a : ArchiveModel)
  | dirAt (children : List DirChild)
deriving DecidableEq

/-- The environment of one run: whether `create_dir_all` on the output
path fails, and what the input path resolves to. -/
structure World where
  mkdirFails : Bool
  inputFS : InputFS
deriving DecidableEq

/-- `main.rs` `InputType`. -/
inductive InputType where
  | file
  | directory
deriving DecidableEq

/-- The ways a run can fail, mirroring the `Err` values produced in
`extract_files_thread` / `process_zip_file_thread`. -/
inductive RunError where
  | mkdirErr
  | invalidDir (path : String)
  | invalidFile (path : String)
  | ioErr
deriving DecidableEq

/-- The `Result` returned by `extract_files_thread`. -/
inductive RunOutcome where
  | ok
  | fail (e : RunError)
deriving DecidableEq

/-- Observable outcome of one run: whether the output directory was
created, which archives were opened (`File::open` calls, in order), the
log lines sent over the channel, the writes performed into the output
directory (file name and bytes, in order), and the returned `Result`. -/
structure RunResult where
  outDirCreated : Bool
  processed : List String
  log : List String
  writes : List (String × List Nat)
  result : RunOutcome
deriving DecidableEq

/-- `main.rs` lines 119-157: the entry loop of `process_zip_file_thread`.
Returns the writes performed, the log lines sent, and an error flag set
when `by_index`, reading, or writing fails.  The writes and log lines of
entries handled before a failing slot have already happened (the files
are on disk, the messages are in the channel), so they are returned
alongside the flag; the failing entry itself contributes nothing and no
later slot is reached.  Skips `__MACOSX` entries and directory entries,
applies the extension filter, and warns on entries without a file-name
component. -/
def processSlots (exts : List String) (outputDir : String) :
    List EntrySlot → List (String × List Nat) × List String × Bool
  | [] => ([], [], false)
  | .fetchErr :: _ => ([], [], true)
  | .good name content :: rest =>
    if containsSub name "__MACOSX" then processSlots exts outputDir rest
    else if zipIsFile name then
      if shouldExtract exts name then
        match pathFileName name with
        | some fn =>
          let r := processSlots exts outputDir rest
          ((fn, content) :: r.1,
            ("Extracted: " ++ outputDir ++ "/" ++ fn ++ "\n") :: r.2.1, r.2.2)
        | none =>
          let r := processSlots exts outputDir rest
          (r.1,
            ("Warning: Skipping entry with invalid file name: " ++ name ++ "\n") :: r.2.1,
            r.2.2)
      else processSlots exts outputDir rest
    else processSlots exts outputDir rest
  | .writeErr name _ :: rest =>
    if containsSub name "__MACOSX" then processSlots exts outputDir rest
    else if zipIsFile name then
      if shouldExtract exts name then
        match pathFileName name with
        | some _ => ([], [], true)
        | none =>
          let r := processSlots exts outputDir rest
          (r.1,
            ("Warning: Skipping entry with invalid file name: " ++ name ++ "\n") :: r.2.1,
            r.2.2)
      else processSlots exts outputDir rest
    else processSlots exts outputDir rest

/-- `main.rs` lines 117-118 plus the entry loop: open and parse the
container, then process its entries; a container that fails to open
contributes no writes and no log lines, only the error flag. -/
def processArchive (exts : List String) (outputDir : String) :
    ArchiveModel → List (String × List Nat) × List String × Bool
  | .openErr => ([], [], true)
  | .archive slots => processSlots exts outputDir slots

/-- `main.rs` lines 83-89: a directory child is selected when it is a
regular file whose extension equals `zip` ignoring ASCII case. -/
def childIsZip : DirChild → Bool
  | .fileChild name _ =>
    match pathExtension name with
    | some e => lowerStr e == "zip"
    | none => false
  | .otherChild _ => false

/-- The container behind a directory child (irrelevant for non-file
children, which are never opened). -/
def childArchive : DirChild → ArchiveModel
  | .fileChild _ a => a
  | .otherChild _ => .openErr

/-- The name of a directory child. -/
def childName : DirChild → String
  | .fileChild n _ => n
  | .otherChild n => n

/-- `main.rs` lines 80-93: the `read_dir` loop.  Selected children are
logged and processed in order; the first failing archive aborts the loop
with an error, keeping the writes and log lines performed up to and
inside it.  Returns (opened archives, log lines, writes, error?). -/
def runChildren (exts : List String) (inputPath outputDir : String) :
    List DirChild → List String × List String × List (String × List Nat) × Option RunError
  | [] => ([], [], [], none)
  | c :: rest =>
    if childIsZip c then
      let p := inputPath ++ "/" ++ childName c
      let r := processArchive exts outputDir (childArchive c)
      if r.2.2 then
        ([p], ("Processing zip file: " ++ p ++ "\n") :: r.2.1, r.1, some .ioErr)
      else
        let rr := runChildren exts inputPath outputDir rest
        (p :: rr.1, ("Processing zip file: " ++ p ++ "\n") :: r.2.1 ++ rr.2.1,
          r.1 ++ rr.2.2.1, rr.2.2.2)
    else runChildren exts inputPath outputDir rest

/-- `main.rs` lines 51-104: `extract_files_thread`.  Creates the output
directory, normalizes the filter, validates the input path against the
selector, walks the selected archives, and reports progress lines. -/
def runExtract (w : World) (inputPath outputPath extensions : String)
    (ty : InputType) : RunResult :=
  if w.mkdirFails then ⟨false, [], [], [], .fail .mkdirErr⟩
  else
    let exts := normalizeExts extensions
    let log0 : List String :=
      if exts.isEmpty then ["No file extensions provided, extracting all files.\n"] else []
    match ty with
    | .directory =>
      match w.inputFS with
      | .dirAt children =>
        match runChildren exts inputPath outputPath children with
        | (ps, logs, ws, some e) => ⟨true, ps, log0 ++ logs, ws, .fail e⟩
        | (ps, logs, ws, none) =>
          ⟨true, ps, log0 ++ logs ++ ["Extraction completed successfully.\n"], ws, .ok⟩
      | _ =>
        ⟨true, [], log0 ++ [inputPath ++ " is not a valid directory.\n"], [],
          .fail (.invalidDir inputPath)⟩
    | .file =>
      match w.inputFS with
      | .fileAt a =>
        let r := processArchive exts outputPath a
        if r.2.2 then
          ⟨true, [inputPath],
            log0 ++ ["Processing zip file: " ++ inputPath ++ "\n"] ++ r.2.1, r.1,
            .fail .ioErr⟩
        else
          ⟨true, [inputPath],
            log0 ++ ["Processing zip file: " ++ inputPath ++ "\n"] ++ r.2.1
              ++ ["Extraction completed successfully.\n"], r.1, .ok⟩
      | _ =>
        ⟨true, [], log0 ++ [inputPath ++ " is not a valid file.\n"], [],
          .fail (.invalidFile inputPath)⟩

/-- The contents of the output directory after a sequence of writes, each
performed with `File::create` truncation semantics: the last write to a
name determines its contents, other names keep their previous value. -/
def dirAfter (init : String → Option (List Nat)) (ws : List (String × List Nat)) :
    String → Option (List Nat) :=
  fun n =>
    match (ws.filter (fun p => p.1 == n)).getLast? with
    | some p => some p.2
    | none => init n

/-- The writes a single readable entry contributes, factored out of the
entry loop for per-entry reasoning. -/
def entryWrites (exts : List String) (name : String) (content : List Nat) :
    List (String × List Nat) :=
  if containsSub name "__MACOSX" then []
  else if zipIsFile name then
    if shouldExtract exts name then
      match pathFileName name with
      | some fn => [(fn, content)]
      | none => []
    else []
  else []

/-- Whether opening and fully processing a container succeeds. -/
def processOK (exts : List String) (outputDir : String) (a : ArchiveModel) : Bool :=
  !(processArchive exts outputDir a).2.2

/-- Claim-side eligibility predicate, written from the words of C1:
not a directory entry, no `__MACOSX` in the path, and the filter is empty
or the lower-cased extension is in the filter (no extension means not
eligible under a non-empty filter). -/
def claimEligible (exts : List String) (name : String) : Bool :=
  zipIsFile name && !containsSub name "__MACOSX" &&
    (exts.isEmpty ||
      (match pathExtension name with
       | some e => exts.contains (lowerStr e)
       | none => false))

/-- Claim-side normalization, written from the words of C2: split on
comma, trim whitespace, strip THE leading dot (one), lower-case, drop
empties. -/
def specNormalizeOneDot (extensions : String) : List String :=
  (((charSplit ',' extensions.toList).map
      (fun p =>
        let t := trimChars p
        (match t with
         | '.' :: rest => rest
         | _ => t).map Char.toLower)).filter
    (fun q => !q.isEmpty)).map String.mk

/-- Spec-side normalization for the amended C2: split on comma, trim
whitespace, strip every leading dot, lower-case, drop empties. -/
def specNormalizeAllDots (extensions : String) : List String :=
  (((charSplit ',' extensions.toList).map
      (fun p => ((trimChars p).dropWhile (fun c => c = '.')).map Char.toLower)).filter
    (fun q => !q.isEmpty)).map String.mk

example : normalizeExts " .PDF, jpg ,, . ,png" = ["pdf", "jpg", "png"] := by decide

example : pathFileName "docs/report.pdf" = some "report.pdf" := by decide

example : pathFileName ".." = none := by decide

example : pathFileName "a/b/" = some "b" := by decide

example : pathExtension "img/photo.PNG" = some "PNG" := by decide

example : pathExtension "README" = none := by decide

example : pathExtension "a/.hidden" = none := by decide

example : shouldExtract ["pdf"] "docs/report.PDF" = true := by decide

example : shouldExtract ["pdf"] "img/photo.PNG" = false := by decide

example : containsSub "docs/__MACOSX/._report.pdf" "__MACOSX" = true := by decide

example : containsSub "docs/report.pdf" "__MACOSX" = false := by decide

example : zipIsFile "docs/" = false := by decide

example :
    (runExtract ⟨false, .fileAt (.archive
        [.good "docs/report.pdf" [1], .good "docs/__MACOSX/._report.pdf" [2],
         .good "img/photo.PNG" [3], .good "docs/" []])⟩
      "a.zip" "out" "pdf" .file).writes = [("report.pdf", [1])] := by decide

example :
    (runExtract ⟨false, .missing⟩ "a.zip" "out" "" .file).result
      = .fail (.invalidFile "a.zip") := by decide

theorem shouldExtract_iff (exts : List String) (name : String) :
    shouldExtract exts name = true ↔
      (exts = [] ∨ ∃ e, pathExtension name = some e ∧ lowerStr e ∈ exts) := by
  unfold shouldExtract
  cases exts with
  | nil => simp
  | cons a l => cases h : pathExtension name <;> simp [h]

theorem entryWrites_ne_nil (exts : List String) (name : String) (c : List Nat) :
    entryWrites exts name c ≠ [] ↔
      (containsSub name "__MACOSX" = false ∧ zipIsFile name = true ∧
        shouldExtract exts name = true ∧ (pathFileName name).isSome = true) := by
  unfold entryWrites
  cases h1 : containsSub name "__MACOSX" <;>
    cases h2 : zipIsFile name <;>
      cases h3 : shouldExtract exts name <;>
        simp [h1, h2, h3]
  cases hfn : pathFileName name <;> simp [hfn]

theorem entryWrites_ne_nil_iff (exts : List String) (name : String) (c : List Nat) :
    entryWrites exts name c ≠ [] ↔
      (containsSub name "__MACOSX" = false ∧ zipIsFile name = true ∧
        (exts = [] ∨ ∃ e, pathExtension name = some e ∧ lowerStr e ∈ exts) ∧
        (pathFileName name).isSome = true) := by
  rw [entryWrites_ne_nil, shouldExtract_iff]

theorem processSlots_goodList (exts : List String) (op : String)
    (entries : List (String × List Nat)) : ∃ ls,
    processSlots exts op (entries.map (fun p => EntrySlot.good p.1 p.2))
      = (entries.flatMap (fun p => entryWrites exts p.1 p.2), ls, false) := by
  induction entries with
  | nil => exact ⟨[], rfl⟩
  | cons p rest ih =>
    obtain ⟨ls, hls⟩ := ih
    obtain ⟨name, content⟩ := p
    by_cases h1 : containsSub name "__MACOSX" = true
    · exact ⟨ls, by simp [processSlots, entryWrites, h1, hls]⟩
    · by_cases h2 : zipIsFile name = true
      · by_cases h3 : shouldExtract exts name = true
        · cases hfn : pathFileName name with
          | some fn =>
            exact ⟨("Extracted: " ++ op ++ "/" ++ fn ++ "\n") :: ls,
              by simp [processSlots, entryWrites, h1, h2, h3, hfn, hls]⟩
          | none =>
            exact ⟨("Warning: Skipping entry with invalid file name: " ++ name ++ "\n") :: ls,
              by simp [processSlots, entryWrites, h1, h2, h3, hfn, hls]⟩
        · exact ⟨ls, by simp [processSlots, entryWrites, h1, h2, h3, hls]⟩
      · exact ⟨ls, by simp [processSlots, entryWrites, h1, h2, hls]⟩

theorem runChildren_allOK (exts : List String) (ip op : String)
    (children : List DirChild)
    (h : ∀ c ∈ children, childIsZip c = true → processOK exts op (childArchive c) = true) :
    (runChildren exts ip op children).1
        = (children.filter childIsZip).map (fun c => ip ++ "/" ++ childName c)
      ∧ (runChildren exts ip op children).2.2.2 = none := by
  induction children with
  | nil => exact ⟨rfl, rfl⟩
  | cons c rest ih =>
    have hrest := ih (fun d hd hz => h d (List.mem_cons_of_mem _ hd) hz)
    by_cases hz : childIsZip c = true
    · have hok := h c (List.mem_cons_self _ _) hz
      have hflag : (processArchive exts op (childArchive c)).2.2 = false := by
        unfold processOK at hok
        simpa using hok
      constructor
      · simp [runChildren, hz, hflag, List.filter_cons, hrest.1]
      · simp [runChildren, hz, hflag, hrest.2]
    · constructor
      · simp [runChildren, hz, List.filter_cons, hrest.1]
      · simp [runChildren, hz, hrest.2]

theorem runChildren_firstErr (exts : List String) (ip op : String)
    (pre : List DirChild) (c : DirChild) (post : List DirChild)
    (hpre : ∀ d ∈ pre, childIsZip d = true → processOK exts op (childArchive d) = true)
    (hz : childIsZip c = true)
    (hfail : (processArchive exts op (childArchive c)).2.2 = true) :
    (runChildren exts ip op (pre ++ c :: post)).1
        = (pre.filter childIsZip).map (fun d => ip ++ "/" ++ childName d)
          ++ [ip ++ "/" ++ childName c]
      ∧ (runChildren exts ip op (pre ++ c :: post)).2.2.2 = some .ioErr := by
  induction pre with
  | nil => constructor <;> simp [runChildren, hz, hfail]
  | cons d rest ih =>
    have hrest := ih (fun x hx hxz => hpre x (List.mem_cons_of_mem _ hx) hxz)
    by_cases hdz : childIsZip d = true
    · have hok := hpre d (List.mem_cons_self _ _) hdz
      have hflag : (processArchive exts op (childArchive d)).2.2 = false := by
        unfold processOK at hok
        simpa using hok
      constructor
      · simp [runChildren, hdz, hflag, List.filter_cons, hrest.1]
      · simp [runChildren, hdz, hflag, hrest.2]
    · constructor
      · simp [runChildren, hdz, List.filter_cons, hrest.1]
      · simp [runChildren, hdz, hrest.2]

theorem dirAfter_mem (init : String → Option (List Nat))
    (ws : List (String × List Nat)) (b : String) (c0 : List Nat)
    (h : (b, c0) ∈ ws) : ∃ c, (b, c) ∈ ws ∧ dirAfter init ws b = some c := by
  have hmem : (b, c0) ∈ ws.filter (fun q => q.1 == b) :=
    List.mem_filter.mpr ⟨h, by simp⟩
  have hne : ws.filter (fun q => q.1 == b) ≠ [] := List.ne_nil_of_mem hmem
  set p := (ws.filter (fun q => q.1 == b)).getLast hne with hpdef
  have hp : (ws.filter (fun q => q.1 == b)).getLast? = some p :=
    List.getLast?_eq_getLast _ hne
  have hpmem := List.mem_filter.mp (List.getLast_mem hne)
  have hb : p.1 = b := beq_iff_eq.mp hpmem.2
  have hmm : (p.1, p.2) ∈ ws := hpmem.1
  rw [hb] at hmm
  exact ⟨p.2, hmm, by unfold dirAfter; rw [hp]⟩

theorem dirAfter_twice (init : String → Option (List Nat))
    (ws : List (String × List Nat)) :
    dirAfter (dirAfter init ws) ws = dirAfter init ws := by
  funext n
  unfold dirAfter
  cases h : (ws.filter (fun p => p.1 == n)).getLast? <;> simp [h, dirAfter]

theorem runExtract_goodFile (ex ip op : String) (entries : List (String × List Nat)) :
    (runExtract ⟨false, .fileAt (.archive (entries.map (fun p => EntrySlot.good p.1 p.2)))⟩
        ip op ex .file).writes
      = entries.flatMap (fun p => entryWrites (normalizeExts ex) p.1 p.2)
    ∧ (runExtract ⟨false, .fileAt (.archive (entries.map (fun p => EntrySlot.good p.1 p.2)))⟩
        ip op ex .file).result = .ok := by
  obtain ⟨ls, hls⟩ := processSlots_goodList (normalizeExts ex) op entries
  constructor <;> simp [runExtract, processArchive, hls]

/-- C1 (corrected): the stated invariant fails on an entry whose path has
no file-name component, such as a lone `..`: with an empty filter it is a
non-directory entry, contains no `__MACOSX`, and passes the empty filter,
yet the engine writes nothing for it (it logs a warning instead). -/
theorem C1_counterexample :
    claimEligible (normalizeExts "") ".." = true
    ∧ (runExtract ⟨false, .fileAt (.archive [.good ".." [1]])⟩
        "a.zip" "out" "" .file).writes = []
    ∧ (runExtract ⟨false, .fileAt (.archive [.good ".." [1]])⟩
        "a.zip" "out" "" .file).log.contains
        "Warning: Skipping entry with invalid file name: ..\n" = true := by decide

/-- C1 (amended): in a run over an archive of readable entries, the
writes are exactly the per-entry writes in container order, and an entry
contributes a write if and only if it is not a directory entry, its path
does not contain `__MACOSX`, the filter is empty or its lower-cased
extension is in the filter set, AND its path has a file-name component. -/
theorem C1_extracted_iff_eligible (ex ip op : String)
    (entries : List (String × List Nat)) :
    (runExtract ⟨false, .fileAt (.archive (entries.map (fun p => EntrySlot.good p.1 p.2)))⟩
        ip op ex .file).writes
      = entries.flatMap (fun p => entryWrites (normalizeExts ex) p.1 p.2)
    ∧ ∀ name c, entryWrites (normalizeExts ex) name c ≠ [] ↔
        (containsSub name "__MACOSX" = false ∧ zipIsFile name = true ∧
          (normalizeExts ex = [] ∨
            ∃ e, pathExtension name = some e ∧ lowerStr e ∈ normalizeExts ex) ∧
          (pathFileName name).isSome = true) :=
  ⟨(runExtract_goodFile ex ip op entries).1,
   fun name c => entryWrites_ne_nil_iff (normalizeExts ex) name c⟩

/-- C2 (corrected): the code strips EVERY leading dot of a piece
(`trim_start_matches('.')`), while the claim strips only the leading dot:
they disagree on the input `..pdf`. -/
theorem C2_counterexample :
    normalizeExts "..pdf" = ["pdf"]
    ∧ specNormalizeOneDot "..pdf" = [".pdf"]
    ∧ normalizeExts "..pdf" ≠ specNormalizeOneDot "..pdf" := by decide

/-- C2 (amended): the normalized filter equals the result of splitting on
comma, trimming whitespace, stripping ALL leading dots, lower-casing and
dropping empty pieces; and an empty resulting filter makes every file
entry pass the extension test. -/
theorem C2_normalization (ex : String) (name : String) :
    normalizeExts ex = specNormalizeAllDots ex
    ∧ (normalizeExts ex = [] → shouldExtract (normalizeExts ex) name = true) :=
  ⟨rfl, fun h => by rw [h]; rfl⟩

theorem C2_witness :
    normalizeExts "" = specNormalizeAllDots ""
    ∧ shouldExtract (normalizeExts "") "notes.txt" = true :=
  ⟨(C2_normalization "" "notes.txt").1,
   (C2_normalization "" "notes.txt").2 (by decide)⟩

/-- C8 (confirmed): applying the writes of one fixed run twice to any
initial output-directory state gives the same directory contents as
applying them once — overwrite semantics, never append or duplicate. -/
theorem C8_idempotent (w : World) (ip op ex : String) (ty : InputType)
    (init : String → Option (List Nat)) :
    dirAfter (dirAfter init (runExtract w ip op ex ty).writes)
        (runExtract w ip op ex ty).writes
      = dirAfter init (runExtract w ip op ex ty).writes :=
  dirAfter_twice init (runExtract w ip op ex ty).writes

/-- C10 (confirmed): under the single-archive selector the input path
string is never inspected: whatever the path (for instance `data.txt`),
the existing regular file behind it is opened and parsed as a ZIP
container, and the run succeeds exactly when that processing succeeds. -/
theorem C10_no_name_check_on_single_file (ip op ex : String) (a : ArchiveModel) :
    (runExtract ⟨false, .fileAt a⟩ ip op ex .file).processed = [ip]
    ∧ ((runExtract ⟨false, .fileAt a⟩ ip op ex .file).result = .ok
        ↔ processOK (normalizeExts ex) op a = true) := by
  cases hflag : (processArchive (normalizeExts ex) op a).2.2 <;>
    constructor <;> simp [runExtract, processOK, hflag]

/-- C3 (confirmed): an eligible entry with base name `b` has its
decompressed bytes written verbatim to `b` in the output directory, the
archive-internal directory structure being discarded; and any name that
is written ends up, for every prior state of the output directory, bound
to bytes that some write of the run put there (overwrite, not append). -/
theorem C3_output_mapping (ex ip op : String)
    (entries : List (String × List Nat)) (name b : String) (content : List Nat)
    (hmem : (name, content) ∈ entries)
    (hmac : containsSub name "__MACOSX" = false)
    (hfile : zipIsFile name = true)
    (hfilter : shouldExtract (normalizeExts ex) name = true)
    (hbase : pathFileName name = some b) :
    (b, content) ∈
      (runExtract ⟨false, .fileAt (.archive (entries.map (fun p => EntrySlot.good p.1 p.2)))⟩
        ip op ex .file).writes
    ∧ ∀ init : String → Option (List Nat), ∃ c,
        (b, c) ∈
          (runExtract ⟨false, .fileAt (.archive (entries.map (fun p => EntrySlot.good p.1 p.2)))⟩
            ip op ex .file).writes
        ∧ dirAfter init
            (runExtract ⟨false, .fileAt (.archive (entries.map (fun p => EntrySlot.good p.1 p.2)))⟩
              ip op ex .file).writes b = some c := by
  have hw := (runExtract_goodFile ex ip op entries).1
  have hmemw : (b, content) ∈
      (runExtract ⟨false, .fileAt (.archive (entries.map (fun p => EntrySlot.good p.1 p.2)))⟩
        ip op ex .file).writes := by
    rw [hw]
    exact List.mem_flatMap.mpr
      ⟨(name, content), hmem, by simp [entryWrites, hmac, hfile, hfilter, hbase]⟩
  exact ⟨hmemw, fun init => dirAfter_mem init _ b content hmemw⟩

theorem C3_witness :
    ("report.pdf", [7]) ∈
      (runExtract ⟨false, .fileAt (.archive [.good "docs/report.pdf" [7]])⟩
        "a.zip" "out" "pdf" .file).writes
    ∧ ∃ c,
        ("report.pdf", c) ∈
          (runExtract ⟨false, .fileAt (.archive [.good "docs/report.pdf" [7]])⟩
            "a.zip" "out" "pdf" .file).writes
        ∧ dirAfter (fun _ => some [9])
            (runExtract ⟨false, .fileAt (.archive [.good "docs/report.pdf" [7]])⟩
              "a.zip" "out" "pdf" .file).writes "report.pdf" = some c :=
  ⟨(C3_output_mapping "pdf" "a.zip" "out" [("docs/report.pdf", [7])]
      "docs/report.pdf" "report.pdf" [7]
      (by decide) (by decide) (by decide) (by decide) (by decide)).1,
   (C3_output_mapping "pdf" "a.zip" "out" [("docs/report.pdf", [7])]
      "docs/report.pdf" "report.pdf" [7]
      (by decide) (by decide) (by decide) (by decide) (by decide)).2
     (fun _ => some [9])⟩

/-- C4 (confirmed): with the directory selector, the archives opened are
exactly the direct children that are regular files with a
case-insensitive `zip` extension, in directory order (provided each
selected archive processes without error), and when the input path is not
a directory the run fails with the invalid-directory error having opened
nothing. -/
theorem C4_directory_selection (ex ip op : String) (children : List DirChild)
    (hok : ∀ c ∈ children, childIsZip c = true →
      processOK (normalizeExts ex) op (childArchive c) = true) :
    (runExtract ⟨false, .dirAt children⟩ ip op ex .directory).processed
        = (children.filter childIsZip).map (fun c => ip ++ "/" ++ childName c)
    ∧ (runExtract ⟨false, .dirAt children⟩ ip op ex .directory).result = .ok
    ∧ ∀ w : World, w.mkdirFails = false → (∀ ch, w.inputFS ≠ .dirAt ch) →
        (runExtract w ip op ex .directory).result = .fail (.invalidDir ip)
        ∧ (runExtract w ip op ex .directory).processed = [] := by
  obtain ⟨hps, herr⟩ := runChildren_allOK (normalizeExts ex) ip op children hok
  rcases hrc : runChildren (normalizeExts ex) ip op children with ⟨ps, logs, ws, e⟩
  rw [hrc] at hps herr
  have he : e = none := herr
  subst he
  refine ⟨?_, ?_, ?_⟩
  · simpa [runExtract, hrc] using hps
  · simp [runExtract, hrc]
  · intro w hmk hne
    obtain ⟨mf, ifs⟩ := w
    simp only at hmk
    subst hmk
    cases ifs with
    | missing => exact ⟨rfl, rfl⟩
    | fileAt a => exact ⟨rfl, rfl⟩
    | dirAt ch => exact absurd rfl (hne ch)

theorem C4_witness :
    (runExtract ⟨false, .dirAt
        [.fileChild "a.zip" (.archive [.good "x.pdf" [1]]),
         .otherChild "sub",
         .fileChild "notes.txt" (.archive []),
         .fileChild "c.ZIP" (.archive [])]⟩
      "in" "out" "" .directory).processed = ["in/a.zip", "in/c.ZIP"]
    ∧ (runExtract ⟨false, .dirAt
        [.fileChild "a.zip" (.archive [.good "x.pdf" [1]]),
         .otherChild "sub",
         .fileChild "notes.txt" (.archive []),
         .fileChild "c.ZIP" (.archive [])]⟩
      "in" "out" "" .directory).result = .ok
    ∧ (runExtract ⟨false, .missing⟩ "in" "out" "" .directory).result
        = .fail (.invalidDir "in") :=
  ⟨((C4_directory_selection ""  "in" "out" _ (by decide)).1).trans (by decide),
   (C4_directory_selection "" "in" "out" _ (by decide)).2.1,
   ((C4_directory_selection "" "in" "out"
      [.fileChild "a.zip" (.archive [.good "x.pdf" [1]]),
       .otherChild "sub",
       .fileChild "notes.txt" (.archive []),
       .fileChild "c.ZIP" (.archive [])] (by decide)).2.2
     ⟨false, .missing⟩ rfl (fun ch h => by cases h)).1⟩

/-- C5 (confirmed): with the single-archive selector, when the input path
is not an existing regular file the run fails with the invalid-file
error, the last log line reports it, no archive is opened and nothing is
written. -/
theorem C5_invalid_input (ip op ex : String) (w : World)
    (hmk : w.mkdirFails = false)
    (hnf : ∀ a, w.inputFS ≠ .fileAt a) :
    (runExtract w ip op ex .file).result = .fail (.invalidFile ip)
    ∧ (runExtract w ip op ex .file).processed = []
    ∧ (runExtract w ip op ex .file).writes = []
    ∧ (runExtract w ip op ex .file).log.getLast?
        = some (ip ++ " is not a valid file.\n") := by
  obtain ⟨mf, ifs⟩ := w
  simp only at hmk
  subst hmk
  cases ifs with
  | fileAt a => exact absurd rfl (hnf a)
  | missing =>
    refine ⟨rfl, rfl, rfl, ?_⟩
    by_cases he : (normalizeExts ex).isEmpty <;> simp [runExtract, he]
  | dirAt ch =>
    refine ⟨rfl, rfl, rfl, ?_⟩
    by_cases he : (normalizeExts ex).isEmpty <;> simp [runExtract, he]

theorem C5_witness :
    (runExtract ⟨false, .missing⟩ "in.zip" "out" "pdf" .file).result
        = .fail (.invalidFile "in.zip")
    ∧ (runExtract ⟨false, .missing⟩ "in.zip" "out" "pdf" .file).processed = []
    ∧ (runExtract ⟨false, .missing⟩ "in.zip" "out" "pdf" .file).writes = []
    ∧ (runExtract ⟨false, .missing⟩ "in.zip" "out" "pdf" .file).log.getLast?
        = some ("in.zip" ++ " is not a valid file.\n") :=
  C5_invalid_input "in.zip" "out" "pdf" ⟨false, .missing⟩ rfl (fun a h => by cases h)

/-- C6 (confirmed): while processing a directory of archives, the first
selected archive whose opening, parsing, entry reading or entry writing
fails aborts the whole run with an error; the archives opened are exactly
the selected ones before it plus itself — none after it is processed. -/
theorem C6_abort_on_first_failure (ex ip op : String)
    (pre post : List DirChild) (c : DirChild)
    (hpre : ∀ d ∈ pre, childIsZip d = true →
      processOK (normalizeExts ex) op (childArchive d) = true)
    (hz : childIsZip c = true)
    (hfail : (processArchive (normalizeExts ex) op (childArchive c)).2.2 = true) :
    (runExtract ⟨false, .dirAt (pre ++ c :: post)⟩ ip op ex .directory).result
        = .fail .ioErr
    ∧ (runExtract ⟨false, .dirAt (pre ++ c :: post)⟩ ip op ex .directory).processed
        = (pre.filter childIsZip).map (fun d => ip ++ "/" ++ childName d)
          ++ [ip ++ "/" ++ childName c] := by
  obtain ⟨hps, herr⟩ := runChildren_firstErr (normalizeExts ex) ip op pre c post hpre hz hfail
  rcases hrc : runChildren (normalizeExts ex) ip op (pre ++ c :: post) with ⟨ps, logs, ws, e⟩
  rw [hrc] at hps herr
  have he : e = some .ioErr := herr
  subst he
  constructor
  · simp [runExtract, hrc]
  · simpa [runExtract, hrc] using hps

theorem C6_witness :
    (runExtract ⟨false, .dirAt
        [.fileChild "a.zip" (.archive [.good "x.pdf" [1]]),
         .fileChild "bad.zip" .openErr,
         .fileChild "c.zip" (.archive [.good "y.pdf" [2]])]⟩
      "in" "out" "" .directory).result = .fail .ioErr
    ∧ (runExtract ⟨false, .dirAt
        [.fileChild "a.zip" (.archive [.good "x.pdf" [1]]),
         .fileChild "bad.zip" .openErr,
         .fileChild "c.zip" (.archive [.good "y.pdf" [2]])]⟩
      "in" "out" "" .directory).processed = ["in/a.zip", "in/bad.zip"] := by
  have h := C6_abort_on_first_failure "" "in" "out"
    [.fileChild "a.zip" (.archive [.good "x.pdf" [1]])]
    [.fileChild "c.zip" (.archive [.good "y.pdf" [2]])]
    (.fileChild "bad.zip" .openErr)
    (by decide) (by decide) rfl
  exact ⟨h.1, h.2.trans (by decide)⟩

/-- C7 (corrected): the claim fails on the code; on an invalid-input-path
failure the last log line is the plain message with no `Error:` prefix
(the `update` loop only drains and appends channel messages verbatim, and
the spawned thread discards the returned `Err`). -/
theorem C7_counterexample :
    (runExtract ⟨false, .missing⟩ "in.zip" "out" "pdf" .file).result
        = .fail (.invalidFile "in.zip")
    ∧ (runExtract ⟨false, .missing⟩ "in.zip" "out" "pdf" .file).log.getLast?
        = some "in.zip is not a valid file.\n"
    ∧ strStartsWith "in.zip is not a valid file.\n" "Error:" = false := by decide

/-- C7 (amended): on an invalid-input-path failure the last log line is
the plain `... is not a valid file/directory.` message, with no `Error:`
prefix added; on an archive open/read/write failure no error line is
appended at all — the log is exactly the progress lines sent before the
failure: the `Processing zip file:` line of the failing archive followed
by the `Extracted:`/warning lines of the entries handled before the
failing one (so the last line is simply the most recent progress line),
and the completion line is absent. -/
theorem C7_error_reporting (ip op ex : String) :
    (∀ w : World, w.mkdirFails = false → (∀ a, w.inputFS ≠ .fileAt a) →
        (runExtract w ip op ex .file).log.getLast?
          = some (ip ++ " is not a valid file.\n"))
    ∧ (∀ w : World, w.mkdirFails = false → (∀ ch, w.inputFS ≠ .dirAt ch) →
        (runExtract w ip op ex .directory).log.getLast?
          = some (ip ++ " is not a valid directory.\n"))
    ∧ (∀ a : ArchiveModel, (processArchive (normalizeExts ex) op a).2.2 = true →
        (runExtract ⟨false, .fileAt a⟩ ip op ex .file).result = .fail .ioErr
        ∧ (runExtract ⟨false, .fileAt a⟩ ip op ex .file).log
            = (if (normalizeExts ex).isEmpty
                then ["No file extensions provided, extracting all files.\n"] else [])
              ++ ["Processing zip file: " ++ ip ++ "\n"]
              ++ (processArchive (normalizeExts ex) op a).2.1) := by
  refine ⟨?_, ?_, ?_⟩
  · intro w hmk hnf
    obtain ⟨mf, ifs⟩ := w
    simp only at hmk
    subst hmk
    cases ifs with
    | fileAt a => exact absurd rfl (hnf a)
    | missing => by_cases he : (normalizeExts ex).isEmpty <;> simp [runExtract, he]
    | dirAt ch => by_cases he : (normalizeExts ex).isEmpty <;> simp [runExtract, he]
  · intro w hmk hnd
    obtain ⟨mf, ifs⟩ := w
    simp only at hmk
    subst hmk
    cases ifs with
    | dirAt ch => exact absurd rfl (hnd ch)
    | missing => by_cases he : (normalizeExts ex).isEmpty <;> simp [runExtract, he]
    | fileAt a => by_cases he : (normalizeExts ex).isEmpty <;> simp [runExtract, he]
  · intro a hflag
    constructor <;>
      by_cases he : (normalizeExts ex).isEmpty <;> simp [runExtract, he, hflag]

theorem C7_witness :
    (runExtract ⟨false, .missing⟩ "zips" "out" "" .file).log.getLast?
        = some ("zips" ++ " is not a valid file.\n")
    ∧ (runExtract ⟨false, .fileAt (.archive [])⟩ "zips" "out" "" .directory).log.getLast?
        = some ("zips" ++ " is not a valid directory.\n")
    ∧ (runExtract ⟨false, .fileAt (.archive [.good "a.pdf" [1], .fetchErr])⟩
        "data.zip" "out" "pdf" .file).result = .fail .ioErr
    ∧ (runExtract ⟨false, .fileAt (.archive [.good "a.pdf" [1], .fetchErr])⟩
        "data.zip" "out" "pdf" .file).log
        = (if (normalizeExts "pdf").isEmpty
            then ["No file extensions provided, extracting all files.\n"] else [])
          ++ ["Processing zip file: " ++ "data.zip" ++ "\n"]
          ++ (processArchive (normalizeExts "pdf") "out"
              (.archive [.good "a.pdf" [1], .fetchErr])).2.1
    ∧ (runExtract ⟨false, .fileAt (.archive [.good "a.pdf" [1], .fetchErr])⟩
        "data.zip" "out" "pdf" .file).log.getLast?
        = some ("Extracted: " ++ "out" ++ "/" ++ "a.pdf" ++ "\n") :=
  ⟨(C7_error_reporting "zips" "out" "").1 ⟨false, .missing⟩ rfl (fun a h => by cases h),
   (C7_error_reporting "zips" "out" "").2.1 ⟨false, .fileAt (.archive [])⟩ rfl
     (fun ch h => by cases h),
   ((C7_error_reporting "data.zip" "out" "pdf").2.2
       (.archive [.good "a.pdf" [1], .fetchErr]) (by decide)).1,
   ((C7_error_reporting "data.zip" "out" "pdf").2.2
       (.archive [.good "a.pdf" [1], .fetchErr]) (by decide)).2,
   by decide⟩

/-- C9 (confirmed): the output directory is created before the input path
is validated, so every run that fails with an invalid-input-path error
has nevertheless created the output directory. -/
theorem C9_outdir_created (w : World) (ip op ex : String) (ty : InputType)
    (h : (runExtract w ip op ex ty).result = .fail (.invalidFile ip)
      ∨ (runExtract w ip op ex ty).result = .fail (.invalidDir ip)) :
    (runExtract w ip op ex ty).outDirCreated = true := by
  obtain ⟨mf, ifs⟩ := w
  cases mf with
  | true => simp [runExtract] at h
  | false =>
    cases ty with
    | file =>
      cases ifs with
      | missing => rfl
      | dirAt ch => rfl
      | fileAt a =>
        cases hflag : (processArchive (normalizeExts ex) op a).2.2 <;>
          simp [runExtract, hflag]
    | directory =>
      cases ifs with
      | missing => rfl
      | fileAt a => rfl
      | dirAt ch =>
        rcases hrc : runChildren (normalizeExts ex) ip op ch with ⟨ps, logs, ws, e⟩
        cases e with
        | none => simp [runExtract, hrc]
        | some er => simp [runExtract, hrc]

theorem C9_witness :
    (runExtract ⟨false, .missing⟩ "gone.zip" "out" "" .file).result
        = .fail (.invalidFile "gone.zip")
    ∧ (runExtract ⟨false, .missing⟩ "gone.zip" "out" "" .file).outDirCreated = true :=
  ⟨by decide,
   C9_outdir_created ⟨false, .missing⟩ "gone.zip" "out" "" .file (Or.inl (by decide))⟩
